import Mathlib

/-!
Verification development for the circe container-image extraction library.

The definitions in this file are a shallow embedding of the Rust sources:

* `src/lib/src/lib.rs`    — data model (digests, media types, layers, filters)
* `src/lib/src/registry.rs` — the registry source
* `src/lib/src/docker.rs` — the tarball source and the daemon source
* `src/lib/src/cio.rs` (= `cfs.rs`) — the tar applier
* `src/lib/src/transform.rs` — stream transform sequencing

Byte streams that the Rust code decodes lazily are represented by the data
they denote (a tar archive is a list of entries; a temp file is its byte
content).  External library functions (the `sha2` hasher, the `regex` and
`glob_match` matchers, compression codecs) are parameters of the embedding:
the repository does not define them, only composes them.  The semantics of
`tokio_tar`'s `unpack_in` primitive is modelled from that crate's documented
behavior (skip prefix/root/cur-dir components, refuse paths containing a
parent-dir component).
-/

namespace Circe

/-! ## Paths

Rust `std::path::Path::components()` yields a normalized list of components.
We model a path directly as that component list. -/

/-- One path component, mirroring `std::path::Component` (Windows prefixes
are not modelled; the sources only special-case them to strip them). -/
inductive Component
  | rootDir
  | curDir
  | dotdot
  | normal (s : String)
deriving DecidableEq, Repr

/-- A path is its (normalized) component list. -/
abbrev CPath := List Component

namespace CPath

/-- Embeds `Path::is_absolute` on Unix: the path has a root. -/
def isAbsolute (p : CPath) : Bool :=
  p.head? = some Component.rootDir

/-- Embeds `Path::join` / `PathBuf::push`: pushing an absolute path replaces. -/
def join (p q : CPath) : CPath :=
  if q.head? = some Component.rootDir then q else p ++ q

/-- Embeds `Path::file_name`: the final component when it is a normal component. -/
def fileName (p : CPath) : Option String :=
  match p.getLast? with
  | some (Component.normal s) => some s
  | _ => none

/-- Embeds `Path::parent`: `None` for an empty path or the bare root. -/
def parentDir (p : CPath) : Option CPath :=
  match p with
  | [] => none
  | [Component.rootDir] => none
  | _ => some p.dropLast

/-- Render one component the way `Path` display / `to_string_lossy` does. -/
def renderComp : Component → String
  | Component.rootDir => ""
  | Component.curDir => "."
  | Component.dotdot => ".."
  | Component.normal s => s

/-- Embeds `to_string_lossy` of the path (all our inputs are valid UTF-8). -/
def render (p : CPath) : String :=
  match p with
  | Component.rootDir :: rest =>
      "/" ++ String.intercalate "/" (rest.map renderComp)
  | _ => String.intercalate "/" (p.map renderComp)

end CPath

/-- Embeds `cio::strip_root`: drop root (and prefix) components, keep the rest. -/
def stripRoot (p : CPath) : CPath :=
  p.filter (fun c => c ≠ Component.rootDir)

/-- Resolved absolute location on disk: the stack of directory names below
the filesystem root after the OS resolves `..` and `.` lexically. -/
abbrev AbsPath := List String

/-- Lexical resolution of a path against the filesystem root: a root
component restarts at the root, `..` pops (clamped at the root, as POSIX
resolves `/..` to `/`), `.` is skipped. -/
def resolve (p : CPath) : AbsPath :=
  p.foldl
    (fun acc c =>
      match c with
      | Component.rootDir => []
      | Component.curDir => acc
      | Component.dotdot => acc.dropLast
      | Component.normal s => acc ++ [s])
    []

/-! ## Filters  (`lib.rs`, `Filters` / `Filter` / `FilterMatch`)

An individual `Filter` is a compiled regex or a glob; its match predicate is
supplied by external crates, so a filter is embedded as its predicate on
strings.  What the repository defines — and what the claims are about — is
the set-level semantics in `Filters::matches`. -/

/-- A single filter, embedded as its string-match predicate. -/
abbrev Filter := String → Bool

/-- A set of filters (`Filters(Vec<Filter>)`). -/
abbrev Filters := List Filter

namespace Filters

/-- Embeds `Filters::matches` (lib.rs line 1000):
`!self.0.is_empty() && self.0.iter().any(|filter| filter.matches(value))`.
(`matches` is a reserved word in Lean, hence the suffix.) -/
def matchesText (fs : Filters) (value : String) : Bool :=
  !fs.isEmpty && fs.any (fun f => f value)

/-- Embeds `FilterMatch<&PathBuf>`: match against `to_string_lossy` of the path. -/
def matchesPath (fs : Filters) (p : CPath) : Bool :=
  matchesText fs (CPath.render p)

end Filters

/-! ## Digests and media types (`lib.rs`) -/

/-- Hex value of one character, `none` when not a hex digit. -/
def hexVal (c : Char) : Option Nat :=
  if '0' ≤ c ∧ c ≤ '9' then some (c.toNat - '0'.toNat)
  else if 'a' ≤ c ∧ c ≤ 'f' then some (c.toNat - 'a'.toNat + 10)
  else if 'A' ≤ c ∧ c ≤ 'F' then some (c.toNat - 'A'.toNat + 10)
  else none

/-- Decode a hex string (as characters) into bytes; `none` when malformed
(odd length or a non-hex character), as the `hex` crate rejects those. -/
def hexDecodeChars : List Char → Option (List Nat)
  | [] => some []
  | [_] => none
  | hi :: lo :: rest => do
      let h ← hexVal hi
      let l ← hexVal lo
      let tail ← hexDecodeChars rest
      pure ((h * 16 + l) :: tail)

/-- Lowercase hex digit for a value below 16. -/
def hexDigit (n : Nat) : Char :=
  if n < 10 then Char.ofNat ('0'.toNat + n) else Char.ofNat ('a'.toNat + n - 10)

/-- Encode bytes as lowercase hex, as `hex::encode` does. -/
def hexEncode (bs : List Nat) : String :=
  String.mk (bs.flatMap (fun b => [hexDigit (b / 16), hexDigit (b % 16)]))

/-- Errors surfaced by the embedded fallible operations. -/
inductive CError
  | invalidDigest
  | unknownMediaType
  | unknownFlag
  | configNotFound
  | imageNotFound
  | panicTodo
deriving DecidableEq, Repr

/-- Embeds `Digest`: an algorithm name with raw hash bytes (lib.rs). -/
structure Digest where
  algorithm : String
  hash : List Nat
deriving DecidableEq, Repr

namespace Digest

/-- Embeds `Digest::as_hex`. -/
def asHex (d : Digest) : String :=
  hexEncode d.hash

/-- Embeds `Display for Digest`: `algorithm:hex`. -/
def toText (d : Digest) : String :=
  d.algorithm ++ ":" ++ d.asHex

/-- Split a character list at the first occurrence of `sep`
(`str::split_once`). -/
def splitOnceChar (sep : Char) : List Char → Option (List Char × List Char)
  | [] => none
  | c :: rest =>
      if c = sep then some ([], rest)
      else (splitOnceChar sep rest).map (fun r => (c :: r.1, r.2))

/-- Embeds `FromStr for Digest`: split on the first `:`, reject empty algorithm or
empty hex, then hex-decode. -/
def fromText (s : String) : Except CError Digest :=
  match splitOnceChar ':' s.data with
  | none => Except.error CError.invalidDigest
  | some (alg, hexPart) =>
      if alg.isEmpty then Except.error CError.invalidDigest
      else if hexPart.isEmpty then Except.error CError.invalidDigest
      else
        match hexDecodeChars hexPart with
        | none => Except.error CError.invalidDigest
        | some bytes => Except.ok { algorithm := String.mk alg, hash := bytes }

end Digest

/-- Embeds `LayerMediaTypeFlag` (lib.rs). -/
inductive LayerMediaTypeFlag
  | foreign
  | zstd
  | gzip
deriving DecidableEq, Repr

namespace LayerMediaTypeFlag

/-- Embeds `FromStr for LayerMediaTypeFlag`. -/
def fromText (s : String) : Except CError LayerMediaTypeFlag :=
  if s = "foreign" then Except.ok foreign
  else if s = "zstd" then Except.ok zstd
  else if s = "gzip" then Except.ok gzip
  else Except.error CError.unknownFlag

/-- Embeds `str::trim` over the character list. -/
def trimChars (l : List Char) : List Char :=
  ((l.dropWhile Char.isWhitespace).reverse.dropWhile Char.isWhitespace).reverse

/-- Embeds `str::split` on a separator character, over the character list. -/
def splitChars (sep : Char) : List Char → List (List Char)
  | [] => [[]]
  | c :: rest =>
      if c = sep then [] :: splitChars sep rest
      else
        match splitChars sep rest with
        | [] => [[c]]
        | piece :: pieces => (c :: piece) :: pieces

/-- Embeds `LayerMediaTypeFlag::parse_set`: trim, empty means no flags, otherwise
split on `+` and parse each segment. -/
def parseSet (s : String) : Except CError (List LayerMediaTypeFlag) :=
  let t := trimChars s.data
  if t.isEmpty then Except.ok []
  else (splitChars '+' t).mapM (fun cs => fromText (String.mk cs))

end LayerMediaTypeFlag

/-- Embeds `LayerMediaType` (lib.rs): the single OCI tar base with ordered flags. -/
inductive LayerMediaType
  | oci (flags : List LayerMediaTypeFlag)
deriving DecidableEq, Repr

namespace LayerMediaType

/-- The canonical OCI layer base string (`AsRefStr` serialization). -/
def ociBase : String := "application/vnd.oci.image.layer.v1.tar"

/-- Split a media type string at the first `+`, defaulting to an empty flag
tail (`s.split_once('+').unwrap_or((s, ""))`). -/
def splitBase (s : String) : String × String :=
  match Digest.splitOnceChar '+' s.data with
  | none => (s, "")
  | some (base, flags) => (String.mk base, String.mk flags)

/-- Embeds `LayerMediaType::compatibility_matrix`. -/
def compatibilityMatrix (s : String) : Except CError (Option LayerMediaType) :=
  if s = "application/vnd.docker.image.rootfs.diff.tar.gzip" then
    Except.ok (some (oci [LayerMediaTypeFlag.gzip]))
  else if s = "application/vnd.docker.image.rootfs.foreign.diff.tar.gzip" then
    Except.ok (some (oci [LayerMediaTypeFlag.gzip, LayerMediaTypeFlag.foreign]))
  else
    let (base, flags) := splitBase s
    if base = "application/vnd.oci.image.layer.nondistributable.v1.tar" then
      (LayerMediaTypeFlag.parseSet flags).map (fun fl => some (oci fl))
    else
      Except.ok none

/-- Embeds `FromStr for LayerMediaType`: compatibility matrix first, then the
canonical OCI base with parsed flags, else an error. -/
def fromText (s : String) : Except CError LayerMediaType := do
  match ← compatibilityMatrix s with
  | some mt => pure mt
  | none =>
      let (base, flags) := splitBase s
      if base = ociBase then
        (LayerMediaTypeFlag.parseSet flags).map oci
      else if s = ociBase then
        pure (oci [])
      else
        Except.error CError.unknownMediaType

end LayerMediaType

/-- Embeds `Layer` (lib.rs): digest, size and media type of one layer. -/
structure Layer where
  digest : Digest
  size : Int
  mediaType : LayerMediaType
deriving DecidableEq, Repr

/-- Embeds `oci_client::manifest::OciDescriptor`, as far as the sources use it:
the raw digest string, media type string and size from the manifest. -/
structure OciDescriptor where
  digest : String
  mediaType : String
  size : Int
deriving DecidableEq, Repr

/-- Embeds `TryFrom<OciDescriptor> for Layer` (registry.rs): parse the digest and
the media type. -/
def Layer.tryFrom (d : OciDescriptor) : Except CError Layer := do
  let digest ← Digest.fromText d.digest
  let mt ← LayerMediaType.fromText d.mediaType
  pure { digest := digest, size := d.size, mediaType := mt }

/-! ## Registry `layers` (registry.rs lines 124-137)

`layers()` pulls the manifest and evaluates
`manifest.layers.into_iter().filter(|l| self.layer_filters.matches(l)).map(Layer::try_from).collect()`,
where `FilterMatch<&OciDescriptor>` matches the raw digest string. -/

namespace Registry

/-- Embeds Rust's `collect::<Result<Vec<Layer>>>` over `Layer::try_from`:
the first parse error aborts the collection. -/
def collectLayers : List OciDescriptor → Except CError (List Layer)
  | [] => Except.ok []
  | d :: rest => do
      let l ← Layer.tryFrom d
      let ls ← collectLayers rest
      pure (l :: ls)

/-- Embeds `Registry::layers`, as a function of the pulled manifest's `layers`
array and the source's layer filters. -/
def layers (manifestLayers : List OciDescriptor) (layerFilters : Filters) :
    Except CError (List Layer) :=
  collectLayers (manifestLayers.filter (fun d => layerFilters.matchesText d.digest))

end Registry

/-- Spec-side definition for claim C1, following the claim's words: a layer
is excluded exactly when its digest (textual form, as listed in the
manifest) matches at least one layer-filter entry, and the remainder is
returned in manifest order. -/
def layersClaimC1 (manifestLayers : List OciDescriptor) (layerFilters : Filters) :
    Except CError (List Layer) :=
  Registry.collectLayers
    (manifestLayers.filter (fun d => !(layerFilters.matchesText d.digest)))

/-- The descriptors kept by layer filtering (the filter step of
`Registry::layers`), used by the filter-monotonicity claim. -/
def keptDescriptors (layerFilters : Filters) (ds : List OciDescriptor) :
    List OciDescriptor :=
  ds.filter (fun d => layerFilters.matchesText d.digest)

/-! ## On-disk filesystem model

The tar applier mutates a directory tree.  We model the disk as a finite
association list from resolved absolute locations to nodes.  Directory
nodes are only materialized where an operation explicitly creates them. -/

/-- One filesystem node. -/
inductive Node
  | file (content : List Nat)
  | dir
  | symlink (target : CPath)
deriving DecidableEq, Repr

/-- The disk: resolved absolute location to node. -/
abbrev FS := List (AbsPath × Node)

/-- Errors from the modelled OS filesystem calls. -/
inductive FsError
  | notFound
  | isDir
  | notADir
  | alreadyExists
  | noLinkTarget
  | noCommonForm
deriving DecidableEq, Repr

namespace FS

/-- Look up the node stored at a location. -/
def find (fs : FS) (p : AbsPath) : Option Node :=
  (fs.find? (fun e => e.1 = p)).map (fun e => e.2)

/-- Remove any node stored at a location. -/
def erase (fs : FS) (p : AbsPath) : FS :=
  fs.filter (fun e => ¬ (e.1 = p))

/-- Store a node at a location, replacing any previous node. -/
def set (fs : FS) (p : AbsPath) (n : Node) : FS :=
  (p, n) :: erase fs p

/-- Embeds `tokio::fs::remove_file` (unlink): removes a file or a symlink; fails
on a directory or a missing target. -/
def removeFile (fs : FS) (p : AbsPath) : Except FsError FS :=
  match find fs p with
  | some (Node.file _) => Except.ok (erase fs p)
  | some (Node.symlink _) => Except.ok (erase fs p)
  | some Node.dir => Except.error FsError.isDir
  | none => Except.error FsError.notFound

/-- Write a regular file, overwriting a previous file or symlink; fails if a
directory occupies the location. -/
def writeFile (fs : FS) (p : AbsPath) (content : List Nat) : Except FsError FS :=
  match find fs p with
  | some Node.dir => Except.error FsError.isDir
  | _ => Except.ok (set fs p (Node.file content))

/-- Create a single directory node; succeeds when the directory already
exists, fails when a non-directory occupies the location. -/
def mkDirNode (fs : FS) (p : AbsPath) : Except FsError FS :=
  match find fs p with
  | some Node.dir => Except.ok fs
  | some _ => Except.error FsError.notADir
  | none => Except.ok (set fs p Node.dir)

/-- Embeds `tokio::fs::symlink`: creates a symlink node; fails if the location is
occupied. -/
def symlinkNew (fs : FS) (p : AbsPath) (target : CPath) : Except FsError FS :=
  match find fs p with
  | none => Except.ok (set fs p (Node.symlink target))
  | some _ => Except.error FsError.alreadyExists

end FS

/-- Worker for `createDirAll`: create each missing directory along the
nested locations `pre ++ [c1]`, `pre ++ [c1, c2]`, …. -/
def createDirAllGo (fs : FS) (pre : AbsPath) : List String → Except FsError FS
  | [] => Except.ok fs
  | c :: rest =>
      let q := pre ++ [c]
      match FS.find fs q with
      | none => createDirAllGo (FS.set fs q Node.dir) q rest
      | some Node.dir => createDirAllGo fs q rest
      | some _ => Except.error FsError.notADir

/-- Embeds `tokio::fs::create_dir_all` at a resolved location. -/
def createDirAll (fs : FS) (p : AbsPath) : Except FsError FS :=
  createDirAllGo fs [] p

/-! ## Tar entries and the applier (`cio.rs` / `cfs.rs`) -/

/-- What a tar entry holds, as far as the applier inspects it: the header
entry type plus (for symlinks) the `link_name`, which the tar format allows
to be missing. -/
inductive EntryKind
  | file (content : List Nat)
  | dir
  | symlink (target : Option CPath)
deriving DecidableEq, Repr

/-- One entry of a tar archive. -/
structure TarEntry where
  path : CPath
  kind : EntryKind
deriving DecidableEq, Repr

/-- Embeds `OsStrBytesExt::strip_prefix` for the literal prefix `.wh.`. -/
def stripWhPre (name : String) : Option String :=
  match name.data with
  | c1 :: c2 :: c3 :: c4 :: rest =>
      if c1 = '.' ∧ c2 = 'w' ∧ c3 = 'h' ∧ c4 = '.' then some (String.mk rest)
      else none
  | _ => none

/-- Embeds `cio::is_whiteout`, applied to the output-joined path: when the file
name starts with `.wh.`, the deletion target is the parent joined with the
remainder of the name. -/
def whiteoutTarget (p : CPath) : Option CPath := do
  let name ← CPath.fileName p
  match stripWhPre name with
  | some rest => pure (p.dropLast ++ [Component.normal rest])
  | none => none

/-- Embeds `Path::strip_prefix`: remove a leading component run, or fail. -/
def dropExact : CPath → CPath → Option CPath
  | [], p => some p
  | _ :: _, [] => none
  | c :: cs, d :: ds => if c = d then dropExact cs ds else none

/-- The component-wise common prefix computed by `compute_symlink_target`
(the zip/take-while step). -/
def commonOf (src dst : CPath) : CPath :=
  ((src.zip dst).takeWhile (fun ab => ab.1 = ab.2)).map (fun ab => ab.1)

/-- Embeds `cio::compute_symlink_target`: component-wise common prefix via
zip/take-while, strip it from both sides, one `..` per remaining source
component after the first, then the destination remainder joined on; `.`
when the result renders empty. -/
def computeSymlinkTarget (src dst : CPath) : Except FsError CPath :=
  match dropExact (commonOf src dst) src, dropExact (commonOf src dst) dst with
  | some srcRel, some dstRel =>
      let bridge := (srcRel.drop 1).map (fun _ => Component.dotdot)
      let rel := CPath.join bridge dstRel
      if rel.isEmpty then Except.ok [Component.curDir] else Except.ok rel
  | _, _ => Except.error FsError.noCommonForm

/-- Embeds `cio::safe_symlink`: intercept symlink entries whose stored target is
absolute.  Returns `none` (Rust `false`) when the entry should fall back to
the default tar unpacking, `some fs` when the symlink was created; the
`?`-propagated errors are the explicit error branches. -/
def safeSymlink (fs : FS) (dir : CPath) (e : TarEntry) :
    Except FsError (Option FS) :=
  match e.kind with
  | EntryKind.symlink none => Except.error FsError.noLinkTarget
  | EntryKind.symlink (some target) =>
      if CPath.isAbsolute target = false then Except.ok none
      else
        match computeSymlinkTarget (CPath.join dir e.path)
            (CPath.join dir (stripRoot target)) with
        | Except.error err => Except.error err
        | Except.ok relTarget =>
            match (match CPath.parentDir (CPath.join dir e.path) with
                   | some par => createDirAll fs (resolve par)
                   | none => Except.ok fs) with
            | Except.error err => Except.error err
            | Except.ok fs1 =>
                match FS.symlinkNew fs1 (resolve (CPath.join dir e.path))
                    relTarget with
                | Except.error err => Except.error err
                | Except.ok fs2 => Except.ok (some fs2)
  | _ => Except.ok none

/-- Embeds `tokio_tar`'s `unpack_in` destination check, modelled from the crate's
documented behavior: starting from the destination directory, skip root and
current-dir components of the entry path, refuse (`none`) on any
parent-dir component, descend into normal components. -/
def unpackDest (out : CPath) (entryPath : CPath) : Option AbsPath :=
  go (resolve out) entryPath
where
  go : AbsPath → CPath → Option AbsPath
    | acc, [] => some acc
    | acc, Component.rootDir :: rest => go acc rest
    | acc, Component.curDir :: rest => go acc rest
    | _, Component.dotdot :: _ => none
    | acc, Component.normal s :: rest => go (acc ++ [s]) rest

/-- Keep the previous disk when a modelled OS call fails (the applier logs
the error and continues with the next entry). -/
def orKeep (r : Except FsError FS) (fs : FS) : FS :=
  match r with
  | Except.ok fs2 => fs2
  | Except.error _ => fs

/-- Embeds `entry.unpack_in(output)`: write the entry below the output directory
when the destination check passes; per-entry failures keep the disk. -/
def unpackIn (fs : FS) (out : CPath) (e : TarEntry) : FS :=
  match unpackDest out e.path with
  | none => fs
  | some dest =>
      match e.kind with
      | EntryKind.file content => orKeep (FS.writeFile fs dest content) fs
      | EntryKind.dir => orKeep (FS.mkDirNode fs dest) fs
      | EntryKind.symlink none => fs
      | EntryKind.symlink (some t) => orKeep (FS.symlinkNew fs dest t) fs

/-- The per-entry body of `cio::apply_tarball`: filter on the output-joined
path, handle whiteouts, intercept absolute symlinks, otherwise unpack; any
per-entry error keeps the disk and moves on. -/
def applyEntry (pathFilters : Filters) (out : CPath) (fs : FS) (e : TarEntry) : FS :=
  let joined := CPath.join out e.path
  if pathFilters.matchesPath joined = false then fs
  else
    match whiteoutTarget joined with
    | some target => orKeep (FS.removeFile fs (resolve target)) fs
    | none =>
        match e.kind with
        | EntryKind.symlink _ =>
            match safeSymlink fs out e with
            | Except.error _ => fs
            | Except.ok (some fs2) => fs2
            | Except.ok none => unpackIn fs out e
        | _ => unpackIn fs out e

/-- The entry loop of `cio::apply_tarball`. -/
def applyEntries (pathFilters : Filters) (entries : List TarEntry) (out : CPath)
    (fs : FS) : FS :=
  entries.foldl (applyEntry pathFilters out) fs

/-- Errors before the entry loop: `archive.entries()` fails only when the
byte stream itself is unreadable. -/
inductive StreamError
  | unreadable
deriving DecidableEq, Repr

/-- Embeds `cio::apply_tarball`: read the archive from the stream (which can fail
when the stream is unreadable) and fold the entries over the disk; once the
entries are readable the operation always returns success. -/
def applyTarball (pathFilters : Filters) (archive : Except StreamError (List TarEntry))
    (out : CPath) (fs : FS) : Except StreamError FS := do
  let entries ← archive
  pure (applyEntries pathFilters entries out fs)

/-- The entries kept by the file-filter step of `apply_tarball` (cio.rs line
222), used by the filter-monotonicity claim. -/
def keptEntries (pathFilters : Filters) (out : CPath) (entries : List TarEntry) :
    List TarEntry :=
  entries.filter (fun e => pathFilters.matchesPath (CPath.join out e.path))

/-- Embeds `cio::enumerate_tarball`: the lossy string forms of the entry paths, in
archive order. -/
def enumerateTarball (entries : List TarEntry) : List String :=
  entries.map (fun e => CPath.render e.path)

/-! ## Stream transforms (`transform.rs`)

A blob stream is represented by the value it denotes; the gzip and zstd
decoders are external codecs, so they are parameters of the embedding. -/

/-- Embeds `transform::sequence`: walk the flags in order; each recognized flag
wraps the current stream with its decoder, every other flag (only
`Foreign`) leaves the stream untouched. -/
def sequence {σ : Type} (gzipDec zstdDec : σ → σ) (stream : σ)
    (flags : List LayerMediaTypeFlag) : σ :=
  flags.foldl
    (fun s f =>
      match f with
      | LayerMediaTypeFlag.zstd => zstdDec s
      | LayerMediaTypeFlag.gzip => gzipDec s
      | LayerMediaTypeFlag.foreign => s)
    stream

/-! ## Source layer operations

For the operations that consume a decoded tar stream, the stream type is
the list of tar entries the decoded bytes denote; the decoders transform
that denotation. -/

/-- A decoded-or-encoded blob stream, by the tar archive it denotes. -/
abbrev TarStream := List TarEntry

namespace Registry

/-- Embeds `Registry::list_files` (registry.rs lines 183-228): foreign layers are
skipped with an empty result; otherwise the zero/one-flag cases are
specialized and the rest go through `sequence`, then the tarball is
enumerated. -/
def listFiles (gzipDec zstdDec : TarStream → TarStream) (layer : Layer)
    (stream : TarStream) : List String :=
  match layer.mediaType with
  | LayerMediaType.oci flags =>
      if flags.contains LayerMediaTypeFlag.foreign then []
      else
        match flags with
        | [] => enumerateTarball stream
        | [LayerMediaTypeFlag.zstd] => enumerateTarball (zstdDec stream)
        | [LayerMediaTypeFlag.gzip] => enumerateTarball (gzipDec stream)
        | _ => enumerateTarball (sequence gzipDec zstdDec stream flags)

/-- Embeds `Registry::apply_layer` (registry.rs lines 270-316): foreign layers are
no-ops returning success; otherwise decode per flags and apply the tar to
the output directory. -/
def applyLayer (gzipDec zstdDec : TarStream → TarStream) (fileFilters : Filters)
    (layer : Layer) (stream : TarStream) (out : CPath) (fs : FS) : FS :=
  match layer.mediaType with
  | LayerMediaType.oci flags =>
      if flags.contains LayerMediaTypeFlag.foreign then fs
      else
        match flags with
        | [] => applyEntries fileFilters stream out fs
        | [LayerMediaTypeFlag.zstd] => applyEntries fileFilters (zstdDec stream) out fs
        | [LayerMediaTypeFlag.gzip] => applyEntries fileFilters (gzipDec stream) out fs
        | _ => applyEntries fileFilters (sequence gzipDec zstdDec stream flags) out fs

/-- Embeds `Registry::layer_plain_tarball` (registry.rs lines 335-372): foreign
layers give `None`; otherwise the decoded stream is sunk into a temp file
(represented by the stream content it would hold). -/
def layerPlainTarball (gzipDec zstdDec : TarStream → TarStream) (layer : Layer)
    (stream : TarStream) : Option TarStream :=
  match layer.mediaType with
  | LayerMediaType.oci flags =>
      if flags.contains LayerMediaTypeFlag.foreign then none
      else
        match flags with
        | [] => some stream
        | [LayerMediaTypeFlag.zstd] => some (zstdDec stream)
        | [LayerMediaTypeFlag.gzip] => some (gzipDec stream)
        | _ => some (sequence gzipDec zstdDec stream flags)

end Registry

namespace Tarball

/-- Embeds `Tarball::list_files` (docker.rs lines 490-521): match on the flags
(no-flags, `[Gzip]`, `[Zstd]`, generic sequence) and enumerate — there is
no foreign guard in this function. -/
def listFiles (gzipDec zstdDec : TarStream → TarStream) (layer : Layer)
    (stream : TarStream) : List String :=
  match layer.mediaType with
  | LayerMediaType.oci flags =>
      match flags with
      | [] => enumerateTarball stream
      | [LayerMediaTypeFlag.gzip] => enumerateTarball (gzipDec stream)
      | [LayerMediaTypeFlag.zstd] => enumerateTarball (zstdDec stream)
      | _ => enumerateTarball (sequence gzipDec zstdDec stream flags)

/-- Embeds `Tarball::apply_layer` (docker.rs lines 523-564): foreign layers are
skipped, otherwise decode per flags and apply. -/
def applyLayer (gzipDec zstdDec : TarStream → TarStream) (fileFilters : Filters)
    (layer : Layer) (stream : TarStream) (out : CPath) (fs : FS) : FS :=
  match layer.mediaType with
  | LayerMediaType.oci flags =>
      if flags.contains LayerMediaTypeFlag.foreign then fs
      else
        match flags with
        | [] => applyEntries fileFilters stream out fs
        | [LayerMediaTypeFlag.gzip] => applyEntries fileFilters (gzipDec stream) out fs
        | [LayerMediaTypeFlag.zstd] => applyEntries fileFilters (zstdDec stream) out fs
        | _ => applyEntries fileFilters (sequence gzipDec zstdDec stream flags) out fs

/-- Embeds `Tarball::layer_plain_tarball` (docker.rs lines 566-594): foreign
layers give `None`, otherwise the decoded stream content. -/
def layerPlainTarball (gzipDec zstdDec : TarStream → TarStream) (layer : Layer)
    (stream : TarStream) : Option TarStream :=
  match layer.mediaType with
  | LayerMediaType.oci flags =>
      if flags.contains LayerMediaTypeFlag.foreign then none
      else
        match flags with
        | [] => some stream
        | [LayerMediaTypeFlag.gzip] => some (gzipDec stream)
        | [LayerMediaTypeFlag.zstd] => some (zstdDec stream)
        | _ => some (sequence gzipDec zstdDec stream flags)

end Tarball

/-! ## Tarball image digest (`docker.rs` lines 615-736)

`read_docker_manifest` locates `manifest.json` in the outer archive;
`compute_image_digest` then locates the config file the manifest names and
hashes its bytes with SHA-256 (the `sha2` crate, a parameter here). -/

/-- Embeds `DockerManifest` (docker.rs): config path, repo tags, layer paths. -/
structure DockerManifest where
  config : String
  repoTags : List String
  layerPaths : List String
deriving DecidableEq, Repr

/-- The outer `docker save` archive: its raw bytes together with the entry
list those bytes encode (path and content of each entry). -/
structure TarFile where
  bytes : List Nat
  entries : List (String × List Nat)
deriving DecidableEq, Repr

/-- First entry of the outer archive whose path equals `p`. -/
def findEntryByPath (t : TarFile) (p : String) : Option (List Nat) :=
  (t.entries.find? (fun e => e.1 = p)).map (fun e => e.2)

/-- Embeds `compute_image_digest` (docker.rs lines 697-736): scan the outer
archive for the entry whose path equals `manifest.config`; hash its content
with SHA-256; error when the config entry is not found. -/
def computeImageDigest (sha256 : List Nat → List Nat) (t : TarFile)
    (m : DockerManifest) : Except CError Digest :=
  match findEntryByPath t m.config with
  | some content => Except.ok { algorithm := "sha256", hash := sha256 content }
  | none => Except.error CError.configNotFound

/-- Spec-side definition for claim C3, following the claim's words: search
the outer archive for an `index.json` entry; if found and it parses, use
its first listed manifest digest; if absent or malformed, fall back to a
SHA-256 over the archive bytes.  The index parser is external input to the
claimed procedure. -/
def claimImageDigestC3 (parseIndex : List Nat → Option (List Digest))
    (sha256 : List Nat → List Nat) (t : TarFile) : Digest :=
  match findEntryByPath t "index.json" with
  | some content =>
      match parseIndex content with
      | some (d :: _) => d
      | _ => { algorithm := "sha256", hash := sha256 t.bytes }
  | none => { algorithm := "sha256", hash := sha256 t.bytes }

/-! ## Daemon source (`docker.rs` lines 214-354)

`Daemon::new` locates the image in the daemon and sinks the export stream
into a temporary file; every layer operation in this revision is a
`todo!()` stub, which panics at runtime. -/

/-- The daemon source: the image id and the exported temp-file content. -/
structure Daemon where
  image : String
  exported : List Nat
  layerFilters : Filters
  fileFilters : Filters

/-- Embeds `find_image` (docker.rs lines 1043-1094): collect `(tag-or-digest, id)`
pairs from the daemon's image list, then look the reference up. -/
def findImage (images : List (List String × String)) (reference : String) :
    Except CError String :=
  let pairs := images.flatMap (fun i => i.1.map (fun t => (t, i.2)))
  match pairs.find? (fun e => e.1 = reference) with
  | some e => Except.ok e.2
  | none => Except.error CError.imageNotFound

/-- Embeds `cio::collect_tmp` for the export stream: the temp file holds the
concatenated chunks. -/
def collectTmp (chunks : List (List Nat)) : List Nat :=
  chunks.flatten

namespace Daemon

/-- Embeds `Daemon::new` (docker.rs lines 238-275): find the image, export it via
the daemon's export endpoint (a stream of chunks per image id), and sink
the stream into a temp file owned by the source. -/
def new (images : List (List String × String)) (reference : String)
    (exportStream : String → List (List Nat))
    (layerFilters fileFilters : Filters) : Except CError Daemon := do
  let image ← findImage images reference
  let exported := collectTmp (exportStream image)
  pure { image := image, exported := exported,
         layerFilters := layerFilters, fileFilters := fileFilters }

/-- Embeds `Daemon::layers` (docker.rs lines 284-289): the body is `todo!()`,
which panics. -/
def layers (_d : Daemon) : Except CError (List Layer) :=
  Except.error CError.panicTodo

/-- Embeds `Daemon::pull_layer` (docker.rs lines 291-298): `todo!()`. -/
def pullLayer (_d : Daemon) (_layer : Layer) : Except CError TarStream :=
  Except.error CError.panicTodo

/-- Embeds `Daemon::list_files` (docker.rs lines 300-304): `todo!()`. -/
def listFiles (_d : Daemon) (_layer : Layer) : Except CError (List String) :=
  Except.error CError.panicTodo

/-- Embeds `Daemon::apply_layer` (docker.rs lines 306-314): `todo!()`. -/
def applyLayer (_d : Daemon) (_layer : Layer) (_out : CPath) (_fs : FS) :
    Except CError FS :=
  Except.error CError.panicTodo

/-- Embeds `Daemon::layer_plain_tarball` (docker.rs lines 316-320): `todo!()`. -/
def layerPlainTarball (_d : Daemon) (_layer : Layer) :
    Except CError (Option TarStream) :=
  Except.error CError.panicTodo

end Daemon

/-- Spec-side formula for claim C8, following the claim's words: one `..`
per component of the source after the common prefix minus one, followed by
the target's remainder under the prefix; `.` when empty. -/
def claimRelTargetC8 (src dst : CPath) : CPath :=
  let k := (commonOf src dst).length
  let rel := List.replicate (src.length - k - 1) Component.dotdot ++ dst.drop k
  if rel.isEmpty then [Component.curDir] else rel

/-! ## Helper lemmas -/

theorem Filters.matchesText_nil (v : String) : Filters.matchesText [] v = false := rfl

theorem Filters.matchesText_append_right {F : Filters} {f : Filter} {v : String}
    (h : Filters.matchesText F v = true) :
    Filters.matchesText (F ++ [f]) v = true := by
  unfold Filters.matchesText at h ⊢
  simp only [Bool.and_eq_true] at h ⊢
  rcases h with ⟨_, h2⟩
  cases F with
  | nil => simp at h2
  | cons a as =>
      refine ⟨rfl, ?_⟩
      rw [show (a :: as) ++ [f] = a :: (as ++ [f]) from rfl]
      rw [show (a :: (as ++ [f])).any (fun g => g v) =
            ((a v) || (as ++ [f]).any (fun g => g v)) from rfl]
      rw [List.any_append]
      rw [show (a :: as).any (fun g => g v) = ((a v) || as.any (fun g => g v)) from rfl]
        at h2
      rcases (Bool.or_eq_true _ _).mp h2 with ha | has
      · rw [ha]
        rfl
      · rw [has]
        simp

theorem FS.find_nil (q : AbsPath) : FS.find [] q = none := rfl

theorem FS.find_cons (e : AbsPath × Node) (fs : FS) (q : AbsPath) :
    FS.find (e :: fs) q = if e.1 = q then some e.2 else FS.find fs q := by
  by_cases h : e.1 = q
  · simp [FS.find, List.find?_cons, h]
  · simp [FS.find, List.find?_cons, h]

theorem FS.erase_cons (e : AbsPath × Node) (fs : FS) (p : AbsPath) :
    FS.erase (e :: fs) p =
      if e.1 = p then FS.erase fs p else e :: FS.erase fs p := by
  by_cases h : e.1 = p
  · simp [FS.erase, List.filter_cons, h]
  · simp [FS.erase, List.filter_cons, h]

theorem FS.find_erase (fs : FS) (p q : AbsPath) :
    FS.find (FS.erase fs p) q = if q = p then none else FS.find fs q := by
  induction fs with
  | nil =>
      show FS.find [] q = if q = p then none else FS.find ([] : FS) q
      rw [FS.find_nil]
      split <;> rfl
  | cons e rest ih =>
      rw [FS.erase_cons]
      by_cases hep : e.1 = p
      · rw [if_pos hep, ih, FS.find_cons]
        by_cases hqp : q = p
        · simp [hqp]
        · rw [if_neg hqp, if_neg hqp,
            if_neg (fun h : e.1 = q => hqp (h.symm.trans hep))]
      · rw [if_neg hep, FS.find_cons, FS.find_cons, ih]
        by_cases heq : e.1 = q
        · by_cases hqp : q = p
          · exact absurd (heq.trans hqp) hep
          · simp [heq, hqp]
        · by_cases hqp : q = p
          · simp [heq, hqp, hep]
          · simp [heq, hqp]

theorem FS.find_set (fs : FS) (p : AbsPath) (n : Node) (q : AbsPath) :
    FS.find (FS.set fs p n) q = if q = p then some n else FS.find fs q := by
  show FS.find ((p, n) :: FS.erase fs p) q = _
  rw [FS.find_cons, FS.find_erase]
  by_cases hqp : q = p
  · rw [if_pos (by rw [hqp]), if_pos hqp]
  · rw [if_neg (fun h => hqp h.symm), if_neg hqp, if_neg hqp]

theorem createDirAllGo_find {cs : List String} :
    ∀ {fs : FS} {pre : AbsPath} {fs2 : FS},
      createDirAllGo fs pre cs = Except.ok fs2 →
      ∀ q n, FS.find fs2 q = some n → FS.find fs q = some n ∨ n = Node.dir := by
  induction cs with
  | nil =>
      intro fs pre fs2 h q n hf
      simp only [createDirAllGo] at h
      cases h
      exact Or.inl hf
  | cons c rest ih =>
      intro fs pre fs2 h q n hf
      simp only [createDirAllGo] at h
      cases hcase : FS.find fs (pre ++ [c]) with
      | none =>
          rw [hcase] at h
          rcases ih h q n hf with hIn | hDir
          · rw [FS.find_set] at hIn
            by_cases hq : q = pre ++ [c]
            · rw [if_pos hq] at hIn
              cases hIn
              exact Or.inr rfl
            · rw [if_neg hq] at hIn
              exact Or.inl hIn
          · exact Or.inr hDir
      | some node =>
          cases node with
          | dir =>
              rw [hcase] at h
              exact ih h q n hf
          | file content =>
              rw [hcase] at h
              cases h
          | symlink t =>
              rw [hcase] at h
              cases h

theorem unpackDestGo_under :
    ∀ {p : CPath} {acc d : AbsPath}, unpackDest.go acc p = some d → acc <+: d := by
  intro p
  induction p with
  | nil =>
      intro acc d h
      simp only [unpackDest.go] at h
      cases h
      exact List.prefix_rfl
  | cons c rest ih =>
      intro acc d h
      cases c with
      | rootDir => exact ih h
      | curDir => exact ih h
      | dotdot => simp [unpackDest.go] at h
      | normal s =>
          have := ih h
          exact List.IsPrefix.trans (List.prefix_append acc [s]) this

theorem unpackDest_under {out : CPath} {p : CPath} {d : AbsPath}
    (h : unpackDest out p = some d) : resolve out <+: d :=
  unpackDestGo_under h

theorem unpackDestGo_none_of_dotdot :
    ∀ {p : CPath} {acc : AbsPath}, Component.dotdot ∈ p → unpackDest.go acc p = none := by
  intro p
  induction p with
  | nil => intro acc h; cases h
  | cons c rest ih =>
      intro acc h
      cases c with
      | rootDir =>
          rcases List.mem_cons.mp h with h1 | h2
          · cases h1
          · exact ih h2
      | curDir =>
          rcases List.mem_cons.mp h with h1 | h2
          · cases h1
          · exact ih h2
      | dotdot => rfl
      | normal s =>
          rcases List.mem_cons.mp h with h1 | h2
          · cases h1
          · exact ih h2

theorem find_set_cases {fs : FS} {p : AbsPath} {nd : Node} {q : AbsPath} {n : Node}
    (h : FS.find (FS.set fs p nd) q = some n) :
    (q = p ∧ n = nd) ∨ (¬ q = p ∧ FS.find fs q = some n) := by
  rw [FS.find_set] at h
  by_cases hq : q = p
  · rw [if_pos hq] at h
    cases h
    exact Or.inl ⟨hq, rfl⟩
  · rw [if_neg hq] at h
    exact Or.inr ⟨hq, h⟩

theorem orKeep_removeFile_find (fs : FS) (p : AbsPath) (q : AbsPath) (n : Node)
    (h : FS.find (orKeep (FS.removeFile fs p) fs) q = some n) :
    FS.find fs q = some n := by
  unfold FS.removeFile at h
  cases hp : FS.find fs p with
  | none => rw [hp] at h; exact h
  | some node =>
      cases node with
      | dir => rw [hp] at h; exact h
      | file content =>
          rw [hp] at h
          unfold orKeep at h
          rw [FS.find_erase] at h
          by_cases hqp : q = p
          · rw [if_pos hqp] at h; cases h
          · rw [if_neg hqp] at h; exact h
      | symlink t =>
          rw [hp] at h
          unfold orKeep at h
          rw [FS.find_erase] at h
          by_cases hqp : q = p
          · rw [if_pos hqp] at h; cases h
          · rw [if_neg hqp] at h; exact h

theorem unpackIn_find (fs : FS) (out : CPath) (e : TarEntry) (q : AbsPath) (n : Node)
    (h : FS.find (unpackIn fs out e) q = some n) :
    FS.find fs q = some n ∨ resolve out <+: q := by
  unfold unpackIn at h
  cases hdest : unpackDest out e.path with
  | none => simp only [hdest] at h; exact Or.inl h
  | some dest =>
      simp only [hdest] at h
      have hunder : resolve out <+: dest := unpackDest_under hdest
      cases hk : e.kind with
      | file content =>
          simp only [hk] at h
          unfold FS.writeFile orKeep at h
          cases hfd : FS.find fs dest with
          | none =>
              simp only [hfd] at h
              rcases find_set_cases h with ⟨hq, _⟩ | ⟨_, hres⟩
              · exact Or.inr (hq ▸ hunder)
              · exact Or.inl hres
          | some node =>
              cases node with
              | dir => simp only [hfd] at h; exact Or.inl h
              | file c2 =>
                  simp only [hfd] at h
                  rcases find_set_cases h with ⟨hq, _⟩ | ⟨_, hres⟩
                  · exact Or.inr (hq ▸ hunder)
                  · exact Or.inl hres
              | symlink t =>
                  simp only [hfd] at h
                  rcases find_set_cases h with ⟨hq, _⟩ | ⟨_, hres⟩
                  · exact Or.inr (hq ▸ hunder)
                  · exact Or.inl hres
      | dir =>
          simp only [hk] at h
          unfold FS.mkDirNode orKeep at h
          cases hfd : FS.find fs dest with
          | none =>
              simp only [hfd] at h
              rcases find_set_cases h with ⟨hq, _⟩ | ⟨_, hres⟩
              · exact Or.inr (hq ▸ hunder)
              · exact Or.inl hres
          | some node =>
              cases node with
              | dir => simp only [hfd] at h; exact Or.inl h
              | file c2 => simp only [hfd] at h; exact Or.inl h
              | symlink t => simp only [hfd] at h; exact Or.inl h
      | symlink targetOpt =>
          cases targetOpt with
          | none => simp only [hk] at h; exact Or.inl h
          | some t =>
              simp only [hk] at h
              unfold FS.symlinkNew orKeep at h
              cases hfd : FS.find fs dest with
              | none =>
                  simp only [hfd] at h
                  rcases find_set_cases h with ⟨hq, _⟩ | ⟨_, hres⟩
                  · exact Or.inr (hq ▸ hunder)
                  · exact Or.inl hres
              | some node => simp only [hfd] at h; exact Or.inl h

theorem safeSymlink_ok_some {fs : FS} {dir : CPath} {e : TarEntry} {fs2 : FS}
    (h : safeSymlink fs dir e = Except.ok (some fs2)) :
    (∃ t, e.kind = EntryKind.symlink (some t) ∧ CPath.isAbsolute t = true) ∧
    (∀ q n, FS.find fs2 q = some n →
      FS.find fs q = some n ∨ q = resolve (CPath.join dir e.path) ∨ n = Node.dir) := by
  unfold safeSymlink at h
  cases hk : e.kind with
  | file content => simp only [hk] at h; cases h
  | dir => simp only [hk] at h; cases h
  | symlink targetOpt =>
      cases targetOpt with
      | none => simp only [hk] at h; cases h
      | some target =>
          simp only [hk] at h
          by_cases habs : CPath.isAbsolute target = false
          · rw [if_pos habs] at h; cases h
          · rw [if_neg habs] at h
            refine ⟨⟨target, rfl, by revert habs; cases CPath.isAbsolute target <;> simp⟩, ?_⟩
            intro q n hfq
            cases hct : computeSymlinkTarget (CPath.join dir e.path)
                (CPath.join dir (stripRoot target)) with
            | error err => simp only [hct] at h; cases h
            | ok rel =>
                simp only [hct] at h
                cases hpar : CPath.parentDir (CPath.join dir e.path) with
                | none =>
                    simp only [hpar] at h
                    cases hsn : FS.symlinkNew fs (resolve (CPath.join dir e.path)) rel with
                    | error err => simp only [hsn] at h; cases h
                    | ok fsX =>
                        simp only [hsn] at h
                        cases h
                        unfold FS.symlinkNew at hsn
                        cases hfd : FS.find fs (resolve (CPath.join dir e.path)) with
                        | some node => rw [hfd] at hsn; cases hsn
                        | none =>
                            rw [hfd] at hsn
                            cases hsn
                            rcases find_set_cases hfq with ⟨hq, _⟩ | ⟨_, hres⟩
                            · exact Or.inr (Or.inl hq)
                            · exact Or.inl hres
                | some par =>
                    simp only [hpar] at h
                    cases hcd : createDirAll fs (resolve par) with
                    | error err => simp only [hcd] at h; cases h
                    | ok fs1 =>
                        simp only [hcd] at h
                        cases hsn : FS.symlinkNew fs1 (resolve (CPath.join dir e.path)) rel with
                        | error err => simp only [hsn] at h; cases h
                        | ok fsX =>
                            simp only [hsn] at h
                            cases h
                            unfold FS.symlinkNew at hsn
                            cases hfd : FS.find fs1 (resolve (CPath.join dir e.path)) with
                            | some node => rw [hfd] at hsn; cases hsn
                            | none =>
                                rw [hfd] at hsn
                                cases hsn
                                rcases find_set_cases hfq with ⟨hq, _⟩ | ⟨_, hres⟩
                                · exact Or.inr (Or.inl hq)
                                · unfold createDirAll at hcd
                                  rcases createDirAllGo_find hcd q n hres with hIn | hDir
                                  · exact Or.inl hIn
                                  · exact Or.inr (Or.inr hDir)

theorem unpackDest_none_of_dotdot {out : CPath} {p : CPath}
    (hdd : Component.dotdot ∈ p) : unpackDest out p = none :=
  unpackDestGo_none_of_dotdot hdd

theorem applyEntry_find (F : Filters) (out : CPath) (fs : FS) (e : TarEntry)
    (hsym : ∀ t, e.kind = EntryKind.symlink (some t) → CPath.isAbsolute t = true →
        resolve out <+: resolve (CPath.join out e.path)) :
    ∀ q n, FS.find (applyEntry F out fs e) q = some n →
      FS.find fs q = some n ∨ resolve out <+: q ∨ n = Node.dir := by
  intro q n h
  unfold applyEntry at h
  by_cases hflt : F.matchesPath (CPath.join out e.path) = false
  · rw [if_pos hflt] at h
    exact Or.inl h
  · rw [if_neg hflt] at h
    cases hwh : whiteoutTarget (CPath.join out e.path) with
    | some target =>
        simp only [hwh] at h
        exact Or.inl (orKeep_removeFile_find fs (resolve target) q n h)
    | none =>
        simp only [hwh] at h
        cases hk : e.kind with
        | file content =>
            simp only [hk] at h
            rcases unpackIn_find fs out e q n h with hres | hund
            · exact Or.inl hres
            · exact Or.inr (Or.inl hund)
        | dir =>
            simp only [hk] at h
            rcases unpackIn_find fs out e q n h with hres | hund
            · exact Or.inl hres
            · exact Or.inr (Or.inl hund)
        | symlink targetOpt =>
            simp only [hk] at h
            cases hss : safeSymlink fs out e with
            | error err =>
                simp only [hss] at h
                exact Or.inl h
            | ok outcome =>
                cases outcome with
                | none =>
                    simp only [hss] at h
                    rcases unpackIn_find fs out e q n h with hres | hund
                    · exact Or.inl hres
                    · exact Or.inr (Or.inl hund)
                | some fs2 =>
                    simp only [hss] at h
                    rcases safeSymlink_ok_some hss with ⟨⟨t, hkt, habs⟩, hfind⟩
                    rcases hfind q n h with hres | hmid | hdir
                    · exact Or.inl hres
                    · exact Or.inr (Or.inl (hmid ▸ hsym t hkt habs))
                    · exact Or.inr (Or.inr hdir)

theorem applyEntries_find (F : Filters) (out : CPath) :
    ∀ (entries : List TarEntry) (fs : FS),
      (∀ e ∈ entries, ∀ t, e.kind = EntryKind.symlink (some t) →
          CPath.isAbsolute t = true →
          resolve out <+: resolve (CPath.join out e.path)) →
      ∀ q n, FS.find (applyEntries F entries out fs) q = some n →
        FS.find fs q = some n ∨ resolve out <+: q ∨ n = Node.dir := by
  intro entries
  induction entries with
  | nil =>
      intro fs _ q n h
      exact Or.inl h
  | cons e rest ih =>
      intro fs hsym q n h
      have hrest := ih (applyEntry F out fs e)
          (fun x hx => hsym x (List.mem_cons_of_mem e hx)) q n h
      rcases hrest with h1 | h2 | h3
      · exact applyEntry_find F out fs e (hsym e (List.mem_cons_self e rest)) q n h1
      · exact Or.inr (Or.inl h2)
      · exact Or.inr (Or.inr h3)

theorem applyEntry_skips_escaping (F : Filters) (out : CPath) (fs : FS) (e : TarEntry)
    (hdd : Component.dotdot ∈ e.path)
    (hwh : whiteoutTarget (CPath.join out e.path) = none)
    (hrel : ∀ t, e.kind = EntryKind.symlink (some t) → CPath.isAbsolute t = false) :
    applyEntry F out fs e = fs := by
  have hun : unpackIn fs out e = fs := by
    unfold unpackIn
    rw [unpackDest_none_of_dotdot hdd]
  unfold applyEntry
  by_cases hflt : F.matchesPath (CPath.join out e.path) = false
  · rw [if_pos hflt]
  · rw [if_neg hflt]
    simp only [hwh]
    cases hk : e.kind with
    | file content => simp only [hk]; exact hun
    | dir => simp only [hk]; exact hun
    | symlink targetOpt =>
        cases targetOpt with
        | none =>
            have hss : safeSymlink fs out e = Except.error FsError.noLinkTarget := by
              unfold safeSymlink
              simp only [hk]
            simp only [hk, hss]
        | some t =>
            have hss : safeSymlink fs out e = Except.ok none := by
              unfold safeSymlink
              simp only [hk]
              rw [if_pos (hrel t hk)]
            simp only [hk, hss]
            exact hun

/-! ## Claim theorems -/

/-- C9: the stream-transform sequencer walks the media-type flag list
left-to-right, wrapping the current stream with a decoder for each
recognized flag and leaving `Foreign` as identity; for the flag list
`[gzip, zstd]` the gzip decoder is applied to the raw bytes first and its
output feeds the zstd decoder. -/
theorem c9_sequence_order {σ : Type} (gzipDec zstdDec : σ → σ) (stream : σ) :
    sequence gzipDec zstdDec stream
        [LayerMediaTypeFlag.gzip, LayerMediaTypeFlag.zstd] =
      zstdDec (gzipDec stream) ∧
    (∀ flags, sequence gzipDec zstdDec stream (LayerMediaTypeFlag.foreign :: flags) =
        sequence gzipDec zstdDec stream flags) ∧
    (∀ flags, sequence gzipDec zstdDec stream (LayerMediaTypeFlag.gzip :: flags) =
        sequence gzipDec zstdDec (gzipDec stream) flags) ∧
    (∀ flags, sequence gzipDec zstdDec stream (LayerMediaTypeFlag.zstd :: flags) =
        sequence gzipDec zstdDec (zstdDec stream) flags) :=
  ⟨rfl, fun _ => rfl, fun _ => rfl, fun _ => rfl⟩

/-- C4 (code bug evidence): for a layer whose media type carries the
`Foreign` flag, `Registry::list_files`, both `apply_layer`s and both
`layer_plain_tarball`s are neutral as claimed, but `Tarball::list_files`
has no foreign guard: on a foreign layer whose blob decodes to a tar with
one entry `a`, it returns `["a"]` instead of the claimed `[]`. -/
theorem c4_foreign_layer_eval :
    Tarball.listFiles id id
        ⟨⟨"sha256", [0]⟩, 1, LayerMediaType.oci [LayerMediaTypeFlag.foreign]⟩
        [⟨[Component.normal "a"], EntryKind.file []⟩] = ["a"] ∧
    Registry.listFiles id id
        ⟨⟨"sha256", [0]⟩, 1, LayerMediaType.oci [LayerMediaTypeFlag.foreign]⟩
        [⟨[Component.normal "a"], EntryKind.file []⟩] = [] ∧
    Registry.applyLayer id id [fun _ => true]
        ⟨⟨"sha256", [0]⟩, 1, LayerMediaType.oci [LayerMediaTypeFlag.foreign]⟩
        [⟨[Component.normal "a"], EntryKind.file []⟩]
        [Component.rootDir, Component.normal "o"] [] = [] ∧
    Registry.layerPlainTarball id id
        ⟨⟨"sha256", [0]⟩, 1, LayerMediaType.oci [LayerMediaTypeFlag.foreign]⟩
        [⟨[Component.normal "a"], EntryKind.file []⟩] = none ∧
    Tarball.applyLayer id id [fun _ => true]
        ⟨⟨"sha256", [0]⟩, 1, LayerMediaType.oci [LayerMediaTypeFlag.foreign]⟩
        [⟨[Component.normal "a"], EntryKind.file []⟩]
        [Component.rootDir, Component.normal "o"] [] = [] ∧
    Tarball.layerPlainTarball id id
        ⟨⟨"sha256", [0]⟩, 1, LayerMediaType.oci [LayerMediaTypeFlag.foreign]⟩
        [⟨[Component.normal "a"], EntryKind.file []⟩] = none :=
  ⟨rfl, rfl, rfl, rfl, rfl, rfl⟩

/-- C2 (code bug evidence): `Daemon::new` does export the located image
into a temporary file, but every layer operation of the daemon source in
this revision is a `todo!()` stub that panics instead of delegating to a
`Tarball` source over the exported file. -/
theorem c2_daemon_todo_stubs :
    Daemon.new [(["img:latest"], "abc123")] "img:latest" (fun _ => [[1, 2], [3]])
        [] [] =
      Except.ok { image := "abc123", exported := [1, 2, 3],
                  layerFilters := [], fileFilters := [] } ∧
    (∀ (d : Daemon) (l : Layer) (out : CPath) (fs : FS),
        Daemon.layers d = Except.error CError.panicTodo ∧
        Daemon.pullLayer d l = Except.error CError.panicTodo ∧
        Daemon.listFiles d l = Except.error CError.panicTodo ∧
        Daemon.applyLayer d l out fs = Except.error CError.panicTodo ∧
        Daemon.layerPlainTarball d l = Except.error CError.panicTodo) :=
  ⟨rfl, fun _ _ _ _ => ⟨rfl, rfl, rfl, rfl, rfl⟩⟩

/-- C3 counterexample: on an archive that has no `index.json` (only the
`manifest.json` the code actually reads) and whose manifest names a config
file `cfg` absent from the archive, the claimed procedure produces a
fallback digest while `compute_image_digest` fails: the digest is not
computed as the claim describes. -/
theorem c3_counterexample :
    computeImageDigest (fun _ => [0])
        ⟨[9, 9], [("manifest.json", [1]), ("other", [2])]⟩ ⟨"cfg", [], []⟩ =
      Except.error CError.configNotFound ∧
    claimImageDigestC3 (fun _ => none) (fun _ => [0])
        ⟨[9, 9], [("manifest.json", [1]), ("other", [2])]⟩ =
      { algorithm := "sha256", hash := [0] } :=
  ⟨rfl, rfl⟩

/-- C3 (amended): the tarball source computes the image digest as a
SHA-256 over the bytes of the config file named by the Docker manifest,
found in the outer archive; when the config entry is absent the
computation fails (`index.json` plays no role). -/
theorem c3_amended (sha256 : List Nat → List Nat) (t : TarFile)
    (m : DockerManifest) :
    (∀ content, findEntryByPath t m.config = some content →
        computeImageDigest sha256 t m =
          Except.ok { algorithm := "sha256", hash := sha256 content }) ∧
    (findEntryByPath t m.config = none →
        computeImageDigest sha256 t m = Except.error CError.configNotFound) := by
  constructor
  · intro content hc
    unfold computeImageDigest
    simp only [hc]
  · intro hc
    unfold computeImageDigest
    simp only [hc]

/-- Witness for `c3_amended` at a concrete archive holding the config. -/
theorem c3_amended_witness :
    computeImageDigest (fun bs => bs ++ [1])
        ⟨[9], [("cfg", [5, 6])]⟩ ⟨"cfg", [], []⟩ =
      Except.ok { algorithm := "sha256", hash := [5, 6, 1] } :=
  (c3_amended (fun bs => bs ++ [1]) ⟨[9], [("cfg", [5, 6])]⟩ ⟨"cfg", [], []⟩).1
    [5, 6] rfl

/-- C7 (code bug evidence): applying a layer that contains the whiteout
entry `.wh.x` with the default (empty) file-filter set leaves `x` in
place, because `Filters::matches` returns `false` for an empty set and the
applier skips every entry; with a matching filter the whiteout removes `x`
as the claim describes. -/
theorem c7_whiteout_skipped_eval :
    applyTarball [] (Except.ok [⟨[Component.normal ".wh.x"], EntryKind.file []⟩])
        [Component.rootDir, Component.normal "o"] [(["o", "x"], Node.file [7])] =
      Except.ok [(["o", "x"], Node.file [7])] ∧
    FS.find [(["o", "x"], Node.file [7])] ["o", "x"] = some (Node.file [7]) ∧
    applyEntries [fun _ => true] [⟨[Component.normal ".wh.x"], EntryKind.file []⟩]
        [Component.rootDir, Component.normal "o"] [(["o", "x"], Node.file [7])] =
      [] :=
  ⟨rfl, rfl, rfl⟩

theorem collectLayers_ok (g : OciDescriptor → Layer) :
    ∀ l : List OciDescriptor,
      (∀ d ∈ l, Layer.tryFrom d = Except.ok (g d)) →
      Registry.collectLayers l = Except.ok (l.map g) := by
  intro l
  induction l with
  | nil => intro _; rfl
  | cons d rest ih =>
      intro h
      have hd : Layer.tryFrom d = Except.ok (g d) := h d (List.mem_cons_self d rest)
      have ht := ih (fun x hx => h x (List.mem_cons_of_mem d hx))
      simp only [Registry.collectLayers]
      rw [hd, ht]
      rfl

theorem filter_matchesText_nil (ds : List OciDescriptor) :
    ds.filter (fun d => Filters.matchesText [] d.digest) = [] := by
  induction ds with
  | nil => rfl
  | cons d rest ih => simp [List.filter_cons, Filters.matchesText, ih]

/-- C1 counterexample: with the single-entry layer-filter set that matches
the manifest layer digest `sha256:aa`, `Registry::layers` KEEPS the
matching layer, while the claim (exclude-on-match) predicts it is
excluded; the two disagree at this concrete input. -/
theorem c1_counterexample :
    Filters.matchesText [fun s => s = "sha256:aa"] "sha256:aa" = true ∧
    Registry.layers [⟨"sha256:aa", "application/vnd.oci.image.layer.v1.tar", 1⟩]
        [fun s => s = "sha256:aa"] =
      Except.ok [{ digest := { algorithm := "sha256", hash := [170] }, size := 1,
                   mediaType := LayerMediaType.oci [] }] ∧
    layersClaimC1 [⟨"sha256:aa", "application/vnd.oci.image.layer.v1.tar", 1⟩]
        [fun s => s = "sha256:aa"] = Except.ok [] :=
  ⟨rfl, rfl, rfl⟩

/-- C1 (amended): `layers()` keeps exactly the manifest layers whose raw
digest string matches at least one layer-filter entry, in manifest order;
with an empty layer-filter set every layer is excluded and the result is
empty. -/
theorem c1_amended (ds : List OciDescriptor) (F : Filters)
    (g : OciDescriptor → Layer)
    (hg : ∀ d ∈ ds, Layer.tryFrom d = Except.ok (g d)) :
    Registry.layers ds F =
      Except.ok ((ds.filter (fun d => F.matchesText d.digest)).map g) ∧
    (F = [] → Registry.layers ds F = Except.ok []) := by
  constructor
  · unfold Registry.layers
    exact collectLayers_ok g _ (fun d hd => hg d (List.mem_of_mem_filter hd))
  · intro hF
    subst hF
    unfold Registry.layers
    rw [filter_matchesText_nil ds]
    rfl

/-- Witness for `c1_amended`: with no filters, no layer is returned. -/
theorem c1_amended_witness :
    Registry.layers [⟨"sha256:aa", "application/vnd.oci.image.layer.v1.tar", 1⟩]
        [] = Except.ok [] :=
  (c1_amended [⟨"sha256:aa", "application/vnd.oci.image.layer.v1.tar", 1⟩] []
      (fun _ => { digest := { algorithm := "sha256", hash := [170] }, size := 1,
                  mediaType := LayerMediaType.oci [] })
      (fun d hd => by cases List.mem_singleton.mp hd; rfl)).2 rfl

/-- C5 counterexample: adding the filter that matches `sha256:aa` to the
empty layer-filter set strictly GROWS the set of kept layers: the layer is
kept under `[] ++ [f]` but not under `[]`, contradicting the claim that
adding a filter never increases what is kept. -/
theorem c5_counterexample :
    (⟨"sha256:aa", "application/vnd.oci.image.layer.v1.tar", 1⟩ : OciDescriptor) ∈
      keptDescriptors (([] : Filters) ++ [((fun s => s = "sha256:aa") : Filter)])
        [⟨"sha256:aa", "application/vnd.oci.image.layer.v1.tar", 1⟩] ∧
    (⟨"sha256:aa", "application/vnd.oci.image.layer.v1.tar", 1⟩ : OciDescriptor) ∉
      keptDescriptors []
        [⟨"sha256:aa", "application/vnd.oci.image.layer.v1.tar", 1⟩] := by
  constructor
  · rw [show keptDescriptors (([] : Filters) ++ [((fun s => s = "sha256:aa") : Filter)])
          [⟨"sha256:aa", "application/vnd.oci.image.layer.v1.tar", 1⟩] =
        [⟨"sha256:aa", "application/vnd.oci.image.layer.v1.tar", 1⟩] from rfl]
    exact List.mem_singleton_self _
  · intro hmem
    rw [show keptDescriptors []
          [⟨"sha256:aa", "application/vnd.oci.image.layer.v1.tar", 1⟩] =
        ([] : List OciDescriptor) from rfl] at hmem
    cases hmem

/-- C5 (amended): filtering is monotone the other way around: adding a
filter to a layer-filter set or to a file-filter set never DECREASES the
set of layers, respectively files, that are kept. -/
theorem c5_amended (F : Filters) (f : Filter) (ds : List OciDescriptor)
    (out : CPath) (es : List TarEntry) :
    (∀ d, d ∈ keptDescriptors F ds → d ∈ keptDescriptors (F ++ [f]) ds) ∧
    (∀ e, e ∈ keptEntries F out es → e ∈ keptEntries (F ++ [f]) out es) := by
  constructor
  · intro d hd
    rcases List.mem_filter.mp hd with ⟨hmem, hp⟩
    exact List.mem_filter.mpr ⟨hmem, Filters.matchesText_append_right hp⟩
  · intro e he
    rcases List.mem_filter.mp he with ⟨hmem, hp⟩
    exact List.mem_filter.mpr ⟨hmem, Filters.matchesText_append_right hp⟩

/-- Witness for `c5_amended` at a concrete kept layer. -/
theorem c5_amended_witness :
    (⟨"sha256:aa", "application/vnd.oci.image.layer.v1.tar", 1⟩ : OciDescriptor) ∈
      keptDescriptors (([((fun s => s = "sha256:aa") : Filter)] : Filters) ++
          [((fun _ => false) : Filter)])
        [⟨"sha256:aa", "application/vnd.oci.image.layer.v1.tar", 1⟩] :=
  (c5_amended [((fun s => s = "sha256:aa") : Filter)] ((fun _ => false) : Filter)
      [⟨"sha256:aa", "application/vnd.oci.image.layer.v1.tar", 1⟩] [] []).1
    ⟨"sha256:aa", "application/vnd.oci.image.layer.v1.tar", 1⟩
    (by
      rw [show keptDescriptors [fun s => s = "sha256:aa"]
            [⟨"sha256:aa", "application/vnd.oci.image.layer.v1.tar", 1⟩] =
          [⟨"sha256:aa", "application/vnd.oci.image.layer.v1.tar", 1⟩] from rfl]
      exact List.mem_singleton_self _)

/-- C6 counterexample: a symlink entry with path `../evil` and absolute
target `/bin/sh`, applied with a matching file filter into `/o`, is not
skipped: the applier creates a symlink node at `/evil`, outside the output
directory, refuting the claim that every escaping entry is skipped and no
file is created outside the output directory. -/
theorem c6_counterexample :
    applyTarball [fun _ => true]
        (Except.ok [⟨[Component.dotdot, Component.normal "evil"],
          EntryKind.symlink (some [Component.rootDir, Component.normal "bin",
            Component.normal "sh"])⟩])
        [Component.rootDir, Component.normal "o"] [] =
      Except.ok [(["evil"],
        Node.symlink [Component.dotdot, Component.normal "bin",
          Component.normal "sh"])] ∧
    ¬ (resolve [Component.rootDir, Component.normal "o"] <+: ["evil"]) := by
  refine ⟨rfl, ?_⟩
  intro hpre
  rcases hpre with ⟨tail, htail⟩
  simp [resolve] at htail

/-- C6 (amended): provided no absolute-target symlink entry has an
escaping entry path, the applier creates nodes only inside the output
directory (directory nodes made by `create_dir_all` aside); an entry with
`..` in its path that reaches the tar-unpack primitive is skipped, leaving
the disk unchanged; and once the stream is readable the whole apply
operation returns success. -/
theorem c6_amended (F : Filters) (out : CPath) (entries : List TarEntry) (fs : FS)
    (hsym : ∀ e ∈ entries, ∀ t, e.kind = EntryKind.symlink (some t) →
        CPath.isAbsolute t = true →
        resolve out <+: resolve (CPath.join out e.path)) :
    applyTarball F (Except.ok entries) out fs =
      Except.ok (applyEntries F entries out fs) ∧
    (∀ q n, FS.find (applyEntries F entries out fs) q = some n →
        FS.find fs q = some n ∨ resolve out <+: q ∨ n = Node.dir) ∧
    (∀ e ∈ entries, Component.dotdot ∈ e.path →
        whiteoutTarget (CPath.join out e.path) = none →
        (∀ t, e.kind = EntryKind.symlink (some t) → CPath.isAbsolute t = false) →
        ∀ fs0, applyEntry F out fs0 e = fs0) := by
  refine ⟨rfl, applyEntries_find F out entries fs hsym, ?_⟩
  intro e hmem hdd hwh hrel fs0
  exact applyEntry_skips_escaping F out fs0 e hdd hwh hrel

/-- Witness for `c6_amended` on an archive with one contained file entry
and one escaping file entry: the escaping one is skipped, everything
created sits under the output directory, and the operation succeeds. -/
theorem c6_amended_witness :
    applyTarball [fun _ => true]
        (Except.ok [⟨[Component.normal "a"], EntryKind.file [1]⟩,
          ⟨[Component.dotdot, Component.normal "pwn"], EntryKind.file [2]⟩])
        [Component.rootDir, Component.normal "o"] [] =
      Except.ok (applyEntries [fun _ => true]
        [⟨[Component.normal "a"], EntryKind.file [1]⟩,
          ⟨[Component.dotdot, Component.normal "pwn"], EntryKind.file [2]⟩]
        [Component.rootDir, Component.normal "o"] []) ∧
    applyEntry [fun _ => true] [Component.rootDir, Component.normal "o"] []
        ⟨[Component.dotdot, Component.normal "pwn"], EntryKind.file [2]⟩ = [] := by
  have hsym : ∀ e ∈ [(⟨[Component.normal "a"], EntryKind.file [1]⟩ : TarEntry),
      ⟨[Component.dotdot, Component.normal "pwn"], EntryKind.file [2]⟩],
      ∀ t, e.kind = EntryKind.symlink (some t) → CPath.isAbsolute t = true →
        resolve [Component.rootDir, Component.normal "o"] <+:
          resolve (CPath.join [Component.rootDir, Component.normal "o"] e.path) := by
    intro e he t hk habs
    rcases List.mem_cons.mp he with rfl | he2
    · cases hk
    · rcases List.mem_cons.mp he2 with rfl | he3
      · cases hk
      · cases he3
  have h := c6_amended [fun _ => true] [Component.rootDir, Component.normal "o"]
    [⟨[Component.normal "a"], EntryKind.file [1]⟩,
      ⟨[Component.dotdot, Component.normal "pwn"], EntryKind.file [2]⟩] [] hsym
  refine ⟨h.1, ?_⟩
  exact h.2.2 ⟨[Component.dotdot, Component.normal "pwn"], EntryKind.file [2]⟩
    (List.mem_cons_of_mem _ (List.mem_singleton_self _))
    (List.mem_cons_self _ _) rfl
    (fun t hk => by cases hk) []

/-- C10: whiteout handling deletes its target with a plain file removal
only: a whiteout entry whose target is a directory (or whose removal
fails for any reason) leaves the disk unchanged, every directory node
survives the whiteout entry, and the apply operation still returns
success — a whiteout never removes a directory. -/
theorem c10_whiteout_never_removes_dir (F : Filters) (out : CPath) (fs : FS)
    (e : TarEntry) (target : CPath)
    (hw : whiteoutTarget (CPath.join out e.path) = some target) :
    (∀ q, FS.find fs q = some Node.dir →
        FS.find (applyEntry F out fs e) q = some Node.dir) ∧
    (FS.find fs (resolve target) = some Node.dir → applyEntry F out fs e = fs) ∧
    (∀ (entries : List TarEntry) (fs0 : FS),
        applyTarball F (Except.ok entries) out fs0 =
          Except.ok (applyEntries F entries out fs0)) := by
  refine ⟨?_, ?_, fun _ _ => rfl⟩
  · intro q hq
    unfold applyEntry
    by_cases hflt : F.matchesPath (CPath.join out e.path) = false
    · rw [if_pos hflt]
      exact hq
    · rw [if_neg hflt]
      simp only [hw]
      unfold FS.removeFile orKeep
      cases hfd : FS.find fs (resolve target) with
      | none => exact hq
      | some node =>
          cases node with
          | dir => exact hq
          | file c =>
              rw [FS.find_erase]
              by_cases hqt : q = resolve target
              · rw [hqt] at hq
                rw [hq] at hfd
                cases hfd
              · rw [if_neg hqt]
                exact hq
          | symlink t =>
              rw [FS.find_erase]
              by_cases hqt : q = resolve target
              · rw [hqt] at hq
                rw [hq] at hfd
                cases hfd
              · rw [if_neg hqt]
                exact hq
  · intro hdir
    unfold applyEntry
    by_cases hflt : F.matchesPath (CPath.join out e.path) = false
    · rw [if_pos hflt]
    · rw [if_neg hflt]
      simp only [hw]
      unfold FS.removeFile orKeep
      rw [hdir]

/-- Witness for `c10_whiteout_never_removes_dir`: the whiteout `.wh.d`
aimed at the directory `/o/d` leaves the disk unchanged. -/
theorem c10_whiteout_witness :
    applyEntry [fun _ => true] [Component.rootDir, Component.normal "o"]
        [(["o", "d"], Node.dir)]
        ⟨[Component.normal ".wh.d"], EntryKind.file []⟩ =
      [(["o", "d"], Node.dir)] :=
  (c10_whiteout_never_removes_dir [fun _ => true]
      [Component.rootDir, Component.normal "o"] [(["o", "d"], Node.dir)]
      ⟨[Component.normal ".wh.d"], EntryKind.file []⟩
      [Component.rootDir, Component.normal "o", Component.normal "d"] rfl).2.1 rfl

theorem commonOf_cons_eq (c : Component) (s d : CPath) :
    commonOf (c :: s) (c :: d) = c :: commonOf s d := by
  unfold commonOf
  simp [List.zip_cons_cons, List.takeWhile_cons]

theorem commonOf_cons_ne {a b : Component} (h : ¬ a = b) (s d : CPath) :
    commonOf (a :: s) (b :: d) = [] := by
  unfold commonOf
  simp [List.zip_cons_cons, List.takeWhile_cons, h]

theorem dropExact_cons_eq (c : Component) (l m : CPath) :
    dropExact (c :: l) (c :: m) = dropExact l m := by
  simp [dropExact]

theorem dropExact_commonOf_left (src : CPath) :
    ∀ dst : CPath,
      dropExact (commonOf src dst) src =
        some (src.drop (commonOf src dst).length) := by
  induction src with
  | nil => intro dst; rfl
  | cons c cs ih =>
      intro dst
      cases dst with
      | nil => rfl
      | cons d ds =>
          by_cases h : c = d
          · subst h
            rw [commonOf_cons_eq, dropExact_cons_eq, ih ds]
            rfl
          · rw [commonOf_cons_ne h]
            rfl

theorem dropExact_commonOf_right (src : CPath) :
    ∀ dst : CPath,
      dropExact (commonOf src dst) dst =
        some (dst.drop (commonOf src dst).length) := by
  induction src with
  | nil => intro dst; rfl
  | cons c cs ih =>
      intro dst
      cases dst with
      | nil => rfl
      | cons d ds =>
          by_cases h : c = d
          · subst h
            rw [commonOf_cons_eq, dropExact_cons_eq, ih ds]
            rfl
          · rw [commonOf_cons_ne h]
            rfl

theorem map_const_dotdot (l : CPath) :
    l.map (fun _ => Component.dotdot) = List.replicate l.length Component.dotdot := by
  induction l with
  | nil => rfl
  | cons x xs ih => simp [List.replicate_succ, ih]

theorem dstRel_head_ne_root (src dst : CPath) (h1 : src.head? = dst.head?)
    (h2 : Component.rootDir ∉ dst.drop 1) :
    ¬ (dst.drop (commonOf src dst).length).head? = some Component.rootDir := by
  intro hhead
  cases dst with
  | nil =>
      rw [List.drop_nil] at hhead
      cases hhead
  | cons b ds =>
      cases src with
      | nil => cases h1
      | cons a s =>
          have hab : a = b := by simpa using h1
          subst hab
          rw [commonOf_cons_eq, List.length_cons, List.drop_succ_cons] at hhead
          have hmem : Component.rootDir ∈ ds.drop (commonOf s ds).length := by
            cases hds : ds.drop (commonOf s ds).length with
            | nil => rw [hds] at hhead; cases hhead
            | cons x xs =>
                rw [hds] at hhead
                cases hhead
                exact List.mem_cons_self _ _
          exact h2 (List.mem_of_mem_drop hmem)

theorem computeSymlinkTarget_claim (src dst : CPath) (h1 : src.head? = dst.head?)
    (h2 : Component.rootDir ∉ dst.drop 1) :
    computeSymlinkTarget src dst = Except.ok (claimRelTargetC8 src dst) := by
  have hhead := dstRel_head_ne_root src dst h1 h2
  unfold computeSymlinkTarget claimRelTargetC8
  simp only [dropExact_commonOf_left src dst, dropExact_commonOf_right src dst]
  have hbridge : ((src.drop (commonOf src dst).length).drop 1).map
      (fun _ => Component.dotdot) =
      List.replicate (src.length - (commonOf src dst).length - 1)
        Component.dotdot := by
    rw [map_const_dotdot, List.length_drop, List.length_drop]
  have hjoin : CPath.join
      (List.replicate (src.length - (commonOf src dst).length - 1)
        Component.dotdot)
      (dst.drop (commonOf src dst).length) =
      List.replicate (src.length - (commonOf src dst).length - 1)
        Component.dotdot ++ dst.drop (commonOf src dst).length := by
    unfold CPath.join
    rw [if_neg hhead]
  rw [hbridge, hjoin]
  by_cases hre : (List.replicate (src.length - (commonOf src dst).length - 1)
      Component.dotdot ++ dst.drop (commonOf src dst).length).isEmpty = true
  · rw [if_pos hre, if_pos hre]
  · rw [if_neg hre, if_neg hre]

theorem safeSymlink_relative (fs : FS) (dir : CPath) (e : TarEntry) (t : CPath)
    (hk : e.kind = EntryKind.symlink (some t))
    (hrel : CPath.isAbsolute t = false) :
    safeSymlink fs dir e = Except.ok none := by
  unfold safeSymlink
  simp only [hk]
  rw [if_pos hrel]

theorem safeSymlink_creates {fs : FS} {dir : CPath} {e : TarEntry} {t : CPath}
    {fs2 : FS} (hk : e.kind = EntryKind.symlink (some t))
    (habs : CPath.isAbsolute t = true)
    (h : safeSymlink fs dir e = Except.ok (some fs2)) :
    ∃ rel, computeSymlinkTarget (CPath.join dir e.path)
        (CPath.join dir (stripRoot t)) = Except.ok rel ∧
      FS.find fs2 (resolve (CPath.join dir e.path)) = some (Node.symlink rel) := by
  unfold safeSymlink at h
  simp only [hk] at h
  rw [if_neg (by rw [habs]; intro hc; cases hc)] at h
  cases hct : computeSymlinkTarget (CPath.join dir e.path)
      (CPath.join dir (stripRoot t)) with
  | error err =>
      simp only [hct] at h
      cases h
  | ok rel =>
      refine ⟨rel, rfl, ?_⟩
      simp only [hct] at h
      cases hpar : CPath.parentDir (CPath.join dir e.path) with
      | none =>
          simp only [hpar] at h
          cases hsn : FS.symlinkNew fs (resolve (CPath.join dir e.path)) rel with
          | error err =>
              simp only [hsn] at h
              cases h
          | ok fsX =>
              simp only [hsn] at h
              cases h
              unfold FS.symlinkNew at hsn
              cases hfd : FS.find fs (resolve (CPath.join dir e.path)) with
              | some node => rw [hfd] at hsn; cases hsn
              | none =>
                  rw [hfd] at hsn
                  cases hsn
                  rw [FS.find_set, if_pos rfl]
      | some par =>
          simp only [hpar] at h
          cases hcd : createDirAll fs (resolve par) with
          | error err =>
              simp only [hcd] at h
              cases h
          | ok fs1 =>
              simp only [hcd] at h
              cases hsn : FS.symlinkNew fs1 (resolve (CPath.join dir e.path)) rel with
              | error err =>
                  simp only [hsn] at h
                  cases h
              | ok fsX =>
                  simp only [hsn] at h
                  cases h
                  unfold FS.symlinkNew at hsn
                  cases hfd : FS.find fs1 (resolve (CPath.join dir e.path)) with
                  | some node => rw [hfd] at hsn; cases hsn
                  | none =>
                      rw [hfd] at hsn
                      cases hsn
                      rw [FS.find_set, if_pos rfl]

theorem computeSymlinkTarget_cons (c : Component) (s d : CPath) :
    computeSymlinkTarget (c :: s) (c :: d) = computeSymlinkTarget s d := by
  unfold computeSymlinkTarget
  rw [commonOf_cons_eq, dropExact_cons_eq, dropExact_cons_eq]

/-- C8: for absolute-target symlinks the applier computes the rewritten
relative target exactly as the claim's formula describes (common prefix,
one `..` per source component after the prefix minus one, destination
remainder, `.` when empty); the created node carries that computed target;
relative-target symlinks are left untouched; and for every directory `D`,
applying `usr/bin/ls → /bin/ls` yields the target `../../bin/ls`. -/
theorem c8_symlink_relativization :
    (∀ src dst : CPath, src.head? = dst.head? →
        Component.rootDir ∉ dst.drop 1 →
        computeSymlinkTarget src dst = Except.ok (claimRelTargetC8 src dst)) ∧
    (∀ (fs : FS) (dir : CPath) (e : TarEntry) (t : CPath),
        e.kind = EntryKind.symlink (some t) → CPath.isAbsolute t = false →
        safeSymlink fs dir e = Except.ok none) ∧
    (∀ (fs : FS) (dir : CPath) (e : TarEntry) (t : CPath) (fs2 : FS),
        e.kind = EntryKind.symlink (some t) → CPath.isAbsolute t = true →
        safeSymlink fs dir e = Except.ok (some fs2) →
        ∃ rel, computeSymlinkTarget (CPath.join dir e.path)
            (CPath.join dir (stripRoot t)) = Except.ok rel ∧
          FS.find fs2 (resolve (CPath.join dir e.path)) =
            some (Node.symlink rel)) ∧
    (∀ dir : CPath,
        computeSymlinkTarget
            (dir ++ [Component.normal "usr", Component.normal "bin",
              Component.normal "ls"])
            (dir ++ [Component.normal "bin", Component.normal "ls"]) =
          Except.ok [Component.dotdot, Component.dotdot, Component.normal "bin",
            Component.normal "ls"]) := by
  refine ⟨computeSymlinkTarget_claim, safeSymlink_relative, ?_, ?_⟩
  · intro fs dir e t fs2 hk habs h
    exact safeSymlink_creates hk habs h
  · intro dir
    induction dir with
    | nil => rfl
    | cons c rest ih =>
        rw [List.cons_append, List.cons_append, computeSymlinkTarget_cons]
        exact ih

/-- Witness for `c8_symlink_relativization` at the claim's example inside
the output directory `/d`. -/
theorem c8_symlink_witness :
    computeSymlinkTarget
        [Component.rootDir, Component.normal "d", Component.normal "usr",
          Component.normal "bin", Component.normal "ls"]
        [Component.rootDir, Component.normal "d", Component.normal "bin",
          Component.normal "ls"] =
      Except.ok (claimRelTargetC8
        [Component.rootDir, Component.normal "d", Component.normal "usr",
          Component.normal "bin", Component.normal "ls"]
        [Component.rootDir, Component.normal "d", Component.normal "bin",
          Component.normal "ls"]) :=
  c8_symlink_relativization.1 _ _ rfl (by decide)

end Circe

